import Mathlib

/-!
Verification of the hotkey resolution/parsing/matching library.

The development shallowly embeds the library's source:
* registry data (`KEY_DEFINITIONS`, `SHIFT_KEY_MAPPINGS`, `KEY_ALIASES`,
  `CODE_ALIASES`, the modifier lookup tables),
* the key resolver (`resolveKey` with its four lookup stages and fallback),
* the combination parser (`parseCombination`),
* the comparators and the matcher (`matchesHotkeys`).

JavaScript strings are modelled as Lean `String`s; `toLowerCase`, `trim`
and `split` are modelled character-wise on `String.data` (all characters
appearing in the registry are ASCII or case-less, for which the JS and
Lean notions agree).  The ambient platform read (`navigator.userAgent`
containing "Mac") is modelled as an explicit boolean parameter `mac`,
threaded to every call, which matches the requirement that the platform
is read fresh on every resolution.
-/

namespace MatchesHotkeys

set_option maxRecDepth 16000

/-- One registry entry value: logical key value and legacy numeric code. -/
structure KeyDef where
  key : String
  keyCode : Int
deriving DecidableEq, Repr

/-- Output of key resolution (`which` mirrors `keyCode`). -/
structure ResolvedKey where
  key : String
  code : String
  keyCode : Int
  which : Int
deriving DecidableEq, Repr

/-- A fully resolved hotkey variant: the four modifier flags plus the
resolved key identity fields. -/
structure ParsedCombination where
  metaKey : Bool
  ctrlKey : Bool
  shiftKey : Bool
  altKey : Bool
  key : String
  code : String
  keyCode : Int
  which : Int
deriving DecidableEq, Repr

/-- First block of `KEY_DEFINITIONS` (letters, digits, function keys);
the table is split into blocks only to keep list literals small. -/
def keyDefsBlockA : List (String × KeyDef) := [
  ("KeyA", ⟨"a", 65⟩), ("KeyB", ⟨"b", 66⟩), ("KeyC", ⟨"c", 67⟩),
  ("KeyD", ⟨"d", 68⟩), ("KeyE", ⟨"e", 69⟩), ("KeyF", ⟨"f", 70⟩),
  ("KeyG", ⟨"g", 71⟩), ("KeyH", ⟨"h", 72⟩), ("KeyI", ⟨"i", 73⟩),
  ("KeyJ", ⟨"j", 74⟩), ("KeyK", ⟨"k", 75⟩), ("KeyL", ⟨"l", 76⟩),
  ("KeyM", ⟨"m", 77⟩), ("KeyN", ⟨"n", 78⟩), ("KeyO", ⟨"o", 79⟩),
  ("KeyP", ⟨"p", 80⟩), ("KeyQ", ⟨"q", 81⟩), ("KeyR", ⟨"r", 82⟩),
  ("KeyS", ⟨"s", 83⟩), ("KeyT", ⟨"t", 84⟩), ("KeyU", ⟨"u", 85⟩),
  ("KeyV", ⟨"v", 86⟩), ("KeyW", ⟨"w", 87⟩), ("KeyX", ⟨"x", 88⟩),
  ("KeyY", ⟨"y", 89⟩), ("KeyZ", ⟨"z", 90⟩),
  ("Digit0", ⟨"0", 48⟩), ("Digit1", ⟨"1", 49⟩), ("Digit2", ⟨"2", 50⟩),
  ("Digit3", ⟨"3", 51⟩), ("Digit4", ⟨"4", 52⟩), ("Digit5", ⟨"5", 53⟩),
  ("Digit6", ⟨"6", 54⟩), ("Digit7", ⟨"7", 55⟩), ("Digit8", ⟨"8", 56⟩),
  ("Digit9", ⟨"9", 57⟩),
  ("F1", ⟨"F1", 112⟩), ("F2", ⟨"F2", 113⟩), ("F3", ⟨"F3", 114⟩),
  ("F4", ⟨"F4", 115⟩), ("F5", ⟨"F5", 116⟩), ("F6", ⟨"F6", 117⟩),
  ("F7", ⟨"F7", 118⟩), ("F8", ⟨"F8", 119⟩), ("F9", ⟨"F9", 120⟩),
  ("F10", ⟨"F10", 121⟩), ("F11", ⟨"F11", 122⟩), ("F12", ⟨"F12", 123⟩)]

/-- Second block of `KEY_DEFINITIONS` (modifier, navigation, editing,
special and symbol keys). -/
def keyDefsBlockB : List (String × KeyDef) := [
  ("ShiftLeft", ⟨"Shift", 16⟩), ("ShiftRight", ⟨"Shift", 16⟩),
  ("ControlLeft", ⟨"Control", 17⟩), ("ControlRight", ⟨"Control", 17⟩),
  ("AltLeft", ⟨"Alt", 18⟩), ("AltRight", ⟨"Alt", 18⟩),
  ("MetaLeft", ⟨"Meta", 91⟩), ("MetaRight", ⟨"Meta", 93⟩),
  ("ArrowUp", ⟨"ArrowUp", 38⟩), ("ArrowDown", ⟨"ArrowDown", 40⟩),
  ("ArrowLeft", ⟨"ArrowLeft", 37⟩), ("ArrowRight", ⟨"ArrowRight", 39⟩),
  ("Home", ⟨"Home", 36⟩), ("End", ⟨"End", 35⟩),
  ("PageUp", ⟨"PageUp", 33⟩), ("PageDown", ⟨"PageDown", 34⟩),
  ("Backspace", ⟨"Backspace", 8⟩), ("Delete", ⟨"Delete", 46⟩),
  ("Insert", ⟨"Insert", 45⟩), ("Tab", ⟨"Tab", 9⟩),
  ("Enter", ⟨"Enter", 13⟩), ("Space", ⟨" ", 32⟩),
  ("Escape", ⟨"Escape", 27⟩), ("CapsLock", ⟨"CapsLock", 20⟩),
  ("NumLock", ⟨"NumLock", 144⟩), ("ScrollLock", ⟨"ScrollLock", 145⟩),
  ("Pause", ⟨"Pause", 19⟩), ("PrintScreen", ⟨"PrintScreen", 44⟩),
  ("Backquote", ⟨"\x60", 192⟩), ("Minus", ⟨"-", 189⟩),
  ("Equal", ⟨"=", 187⟩), ("BracketLeft", ⟨"[", 219⟩),
  ("BracketRight", ⟨"]", 221⟩), ("Backslash", ⟨"\\", 220⟩),
  ("Semicolon", ⟨";", 186⟩), ("Quote", ⟨"\x27", 222⟩),
  ("Comma", ⟨",", 188⟩), ("Period", ⟨".", 190⟩), ("Slash", ⟨"/", 191⟩)]

/-- Third block of `KEY_DEFINITIONS` (numpad, media, browser, launch and
international keys). -/
def keyDefsBlockC : List (String × KeyDef) := [
  ("Numpad0", ⟨"0", 96⟩), ("Numpad1", ⟨"1", 97⟩), ("Numpad2", ⟨"2", 98⟩),
  ("Numpad3", ⟨"3", 99⟩), ("Numpad4", ⟨"4", 100⟩), ("Numpad5", ⟨"5", 101⟩),
  ("Numpad6", ⟨"6", 102⟩), ("Numpad7", ⟨"7", 103⟩), ("Numpad8", ⟨"8", 104⟩),
  ("Numpad9", ⟨"9", 105⟩),
  ("NumpadDecimal", ⟨".", 110⟩), ("NumpadDivide", ⟨"/", 111⟩),
  ("NumpadMultiply", ⟨"*", 106⟩), ("NumpadSubtract", ⟨"-", 109⟩),
  ("NumpadAdd", ⟨"+", 107⟩), ("NumpadEnter", ⟨"Enter", 13⟩),
  ("AudioVolumeUp", ⟨"AudioVolumeUp", 175⟩),
  ("AudioVolumeDown", ⟨"AudioVolumeDown", 174⟩),
  ("AudioVolumeMute", ⟨"AudioVolumeMute", 173⟩),
  ("MediaPlayPause", ⟨"MediaPlayPause", 179⟩),
  ("MediaStop", ⟨"MediaStop", 178⟩),
  ("MediaTrackNext", ⟨"MediaTrackNext", 176⟩),
  ("MediaTrackPrevious", ⟨"MediaTrackPrevious", 177⟩),
  ("BrowserBack", ⟨"BrowserBack", 166⟩),
  ("BrowserForward", ⟨"BrowserForward", 167⟩),
  ("BrowserRefresh", ⟨"BrowserRefresh", 168⟩),
  ("BrowserHome", ⟨"BrowserHome", 172⟩),
  ("BrowserSearch", ⟨"BrowserSearch", 170⟩),
  ("BrowserFavorites", ⟨"BrowserFavorites", 171⟩),
  ("LaunchMail", ⟨"LaunchMail", 180⟩),
  ("LaunchApp1", ⟨"LaunchApp1", 182⟩),
  ("LaunchApp2", ⟨"LaunchApp2", 183⟩),
  ("MediaSelect", ⟨"MediaSelect", 181⟩),
  ("IntlBackslash", ⟨"\\", 226⟩),
  ("IntlRo", ⟨"ろ", 193⟩),
  ("IntlYen", ⟨"¥", 255⟩)]

/-- `KEY_DEFINITIONS` from `consts.ts`: association list from W3C code to
logical key value and legacy numeric code, in declaration order. -/
def KEY_DEFINITIONS : List (String × KeyDef) :=
  keyDefsBlockA ++ keyDefsBlockB ++ keyDefsBlockC

/-- `SHIFT_KEY_MAPPINGS` from `consts.ts`: base code to the character the
key produces while Shift is held, in declaration order. -/
def SHIFT_KEY_MAPPINGS : List (String × String) := [
  ("Equal", "+"), ("Digit1", "!"), ("Digit2", "@"), ("Digit3", "#"),
  ("Digit4", "$"), ("Digit5", "%"), ("Digit6", "^"), ("Digit7", "&"),
  ("Digit8", "*"), ("Digit9", "("), ("Digit0", ")"), ("Minus", "_"),
  ("Backquote", "~"), ("BracketLeft", "\x7b"), ("BracketRight", "\x7d"),
  ("Backslash", "|"), ("Semicolon", ":"), ("Quote", "\""),
  ("Comma", "<"), ("Period", ">"), ("Slash", "?")]

/-- `KEY_ALIASES` from `consts.ts`: logical key value to its alias list. -/
def KEY_ALIASES : List (String × List String) := [
  ("Alt", ["option"]),
  ("Meta", ["win", "windows", "cmd", "command"]),
  ("Control", ["ctrl"]),
  ("Escape", ["esc"]),
  ("Enter", ["return"]),
  ("Delete", ["del"]),
  ("Insert", ["ins"]),
  ("CapsLock", ["caps"]),
  ("PrintScreen", ["printscreen", "prtsc"]),
  ("ArrowUp", ["up"]),
  ("ArrowDown", ["down"]),
  ("ArrowLeft", ["left"]),
  ("ArrowRight", ["right"]),
  ("PageUp", ["pgup"]),
  ("PageDown", ["pgdn"]),
  ("\x60", ["grave", "backtick"]),
  ("-", ["minus", "dash"]),
  ("=", ["equal", "equals"]),
  ("[", ["openbracket", "leftbracket"]),
  ("]", ["closebracket", "rightbracket"]),
  (";", ["semicolon"]),
  ("\x27", ["quote", "apostrophe"]),
  (".", ["period", "dot"]),
  (" ", ["space"])]

/-- `CODE_ALIASES` from `consts.ts`: physical code to its alias list. -/
def CODE_ALIASES : List (String × List String) := [
  ("ShiftLeft", ["leftshift", "lshift"]),
  ("ShiftRight", ["rightshift", "rshift"]),
  ("ControlLeft", ["leftctrl", "lctrl", "leftcontrol"]),
  ("ControlRight", ["rightctrl", "rctrl", "rightcontrol"]),
  ("AltLeft", ["leftalt", "lalt", "leftoption"]),
  ("AltRight", ["rightalt", "ralt", "rightoption"]),
  ("MetaLeft", ["leftmeta", "lmeta", "leftcmd", "lcmd"]),
  ("MetaRight", ["rightmeta", "rmeta", "rightcmd", "rcmd"]),
  ("NumpadDecimal", ["numpaddot"]),
  ("NumpadDivide", ["numpadslash"]),
  ("NumpadMultiply", ["numpadstar"]),
  ("NumpadSubtract", ["numpadminus"]),
  ("NumpadAdd", ["numpadplus"])]

/-- `MODIFIER_KEY_DEFINITIONS` from `consts.ts`: logical modifier key
value to the corresponding `KeyboardEvent` flag name. -/
def MODIFIER_KEY_DEFINITIONS : List (String × String) :=
  [("Meta", "metaKey"), ("Control", "ctrlKey"),
   ("Shift", "shiftKey"), ("Alt", "altKey")]

/-- ASCII lowercasing of one character, as JS `toLowerCase` acts on the
characters appearing in this development (all are ASCII or case-less). -/
def lowerChar (c : Char) : Char :=
  if 65 ≤ c.toNat ∧ c.toNat ≤ 90 then Char.ofNat (c.toNat + 32) else c

/-- Character-wise model of JS `String.prototype.toLowerCase`. -/
def lowerString (s : String) : String := ⟨s.data.map lowerChar⟩

/-- Whitespace test used by the model of JS `String.prototype.trim`
(the inputs of interest only ever contain plain spaces). -/
def isSpaceChar (c : Char) : Bool :=
  c == ' ' || c == '\t' || c == '\n' || c == '\r'

/-- Character-wise model of JS `String.prototype.trim`. -/
def trimString (s : String) : String :=
  ⟨((s.data.dropWhile isSpaceChar).reverse.dropWhile isSpaceChar).reverse⟩

/-- Worker for the model of JS `String.prototype.split`: scans left to
right, cutting at each (non-overlapping) occurrence of the separator
`sep`; `acc` holds the current segment reversed.  The `fuel` argument
only makes the recursion structural: every step consumes at least one
character, so any `fuel` at least the list length is enough and the
fuel-exhaustion branch is unreachable from `jsSplit`. -/
def jsSplitGo (sep : List Char) : Nat → List Char → List Char → List (List Char)
  | _, [], acc => [acc.reverse]
  | 0, l, acc => [acc.reverse ++ l]
  | fuel + 1, a :: as, acc =>
    if sep.isPrefixOf (a :: as) then
      acc.reverse :: jsSplitGo sep fuel (as.drop (sep.length - 1)) []
    else
      jsSplitGo sep fuel as (a :: acc)

/-- Model of JS `String.prototype.split` for a non-empty separator. -/
def jsSplit (sep s : String) : List String :=
  (jsSplitGo sep.data s.data.length s.data []).map (fun cs => ⟨cs⟩)

/-- The textual form of a token list: the tokens joined by the
separator (JS `Array.prototype.join`). -/
def joinTokens (sep : String) (tokens : List String) : String :=
  ⟨List.intercalate sep.data (tokens.map String.data)⟩

/-- Look a code up in `KEY_DEFINITIONS` (JS `KEY_DEFINITIONS[code]`). -/
def findKeyDef (code : String) : Option KeyDef :=
  (KEY_DEFINITIONS.find? (fun e => e.fst = code)).map (·.snd)

/-- `findByCode` from `resolveKey.ts`: exact physical-code match against
the lowercased code index (`LOWERCASE_CODE_MAP`). -/
def findByCode (input : String) : Option ResolvedKey :=
  (KEY_DEFINITIONS.find? (fun e => lowerString e.fst = input)).map
    (fun e => ⟨e.snd.key, e.fst, e.snd.keyCode, e.snd.keyCode⟩)

/-- The entries of `CODE_ALIAS_MAP` from `consts.ts`: lowercased code
alias paired with its canonical code. -/
def codeAliasPairs : List (String × String) :=
  CODE_ALIASES.flatMap (fun e => e.snd.map (fun a => (lowerString a, e.fst)))

/-- `findByCodeAlias` from `resolveKey.ts`: code-alias match. -/
def findByCodeAlias (input : String) : Option ResolvedKey :=
  (codeAliasPairs.find? (fun p => p.fst = input)).bind (fun p =>
    (findKeyDef p.snd).map (fun d => ⟨d.key, p.snd, d.keyCode, d.keyCode⟩))

/-- Direct logical-key matches of `findByKey`: all `KEY_DEFINITIONS`
entries whose key value lowercases to the input, in declaration order. -/
def directKeyMatches (input : String) : List ResolvedKey :=
  KEY_DEFINITIONS.filterMap (fun e =>
    if lowerString e.snd.key = input then
      some ⟨e.snd.key, e.fst, e.snd.keyCode, e.snd.keyCode⟩
    else none)

/-- Shift-derived matches of `findByKey`: all `SHIFT_KEY_MAPPINGS`
entries whose shifted character lowercases to the input, carrying the
base code and its numeric code, in declaration order. -/
def shiftKeyMatches (input : String) : List ResolvedKey :=
  SHIFT_KEY_MAPPINGS.filterMap (fun m =>
    if lowerString m.snd = input then
      (findKeyDef m.fst).map (fun d => ⟨m.snd, m.fst, d.keyCode, d.keyCode⟩)
    else none)

/-- `findByKey` from `resolveKey.ts`: direct key-value matches first,
then shift-derived matches. -/
def findByKey (input : String) : List ResolvedKey :=
  directKeyMatches input ++ shiftKeyMatches input

/-- `findByKeyAlias` from `resolveKey.ts`: translate the token through
`KEY_ALIASES` to its canonical key value, then collect the same direct
and shift-derived matches for that value. -/
def findByKeyAlias (input : String) : List ResolvedKey :=
  match KEY_ALIASES.find? (fun e => (e.snd.map lowerString).contains input) with
  | none => []
  | some e =>
      directKeyMatches (lowerString e.fst) ++ shiftKeyMatches (lowerString e.fst)

/-- `preMap` from `preMap.ts`: platform-token substitution, with the
platform read modelled by the boolean `mac`. -/
def preMap (mac : Bool) (normalizedInput : String) : String :=
  if normalizedInput = "mod" then (if mac then "meta" else "control")
  else normalizedInput

/-- `resolveKey` from `resolveKey.ts`: five-stage resolution with the
fallback record carrying the original input and sentinel `-1`. -/
def resolveKey (mac : Bool) (input : String) : List ResolvedKey :=
  if input = "" then []
  else
    let normalizedInput := preMap mac (lowerString input)
    match findByCode normalizedInput with
    | some codeEntry => [codeEntry]
    | none =>
      match findByCodeAlias normalizedInput with
      | some codeFromAlias => [codeFromAlias]
      | none =>
        let keyEntries := findByKey normalizedInput
        if keyEntries.length > 0 then keyEntries
        else
          let aliasEntries := findByKeyAlias normalizedInput
          if aliasEntries.length > 0 then aliasEntries
          else [⟨input, input, -1, -1⟩]

/-- The entries of `MODIFIER_KEY_MAP` from `consts.ts`, in construction
order: canonical modifier key values, key aliases of modifiers, code
names of modifiers, code aliases of modifiers.  (All the entry groups
are pairwise disjoint in the data, so first-match lookup agrees with the
JS `Map`, whose construction keeps the last duplicate.) -/
def modifierEntries : List (String × String) :=
  (MODIFIER_KEY_DEFINITIONS.map (fun e => (lowerString e.fst, e.snd))) ++
  (KEY_ALIASES.flatMap (fun e =>
    match MODIFIER_KEY_DEFINITIONS.find? (fun m => m.fst = e.fst) with
    | none => []
    | some m => e.snd.map (fun a => (lowerString a, m.snd)))) ++
  (KEY_DEFINITIONS.filterMap (fun d =>
    (MODIFIER_KEY_DEFINITIONS.find? (fun m => m.fst = d.snd.key)).map
      (fun m => (lowerString d.fst, m.snd)))) ++
  (CODE_ALIASES.flatMap (fun e =>
    match findKeyDef e.fst with
    | none => []
    | some d =>
      match MODIFIER_KEY_DEFINITIONS.find? (fun m => m.fst = d.key) with
      | none => []
      | some m => e.snd.map (fun a => (lowerString a, m.snd))))

/-- `MODIFIER_KEY_MAP.get` from `consts.ts`. -/
def modifierKeyLookup (token : String) : Option String :=
  (modifierEntries.find? (fun p => p.fst = token)).map (·.snd)

/-- `MODIFIER_CODE_TOKENS` from `consts.ts`: lowercased code names and
code aliases of modifier keys. -/
def MODIFIER_CODE_TOKENS : List String :=
  (KEY_DEFINITIONS.filterMap (fun d =>
    if (MODIFIER_KEY_DEFINITIONS.find? (fun m => m.fst = d.snd.key)).isSome
    then some (lowerString d.fst) else none)) ++
  (CODE_ALIASES.flatMap (fun e =>
    match findKeyDef e.fst with
    | none => []
    | some d =>
      if (MODIFIER_KEY_DEFINITIONS.find? (fun m => m.fst = d.key)).isSome
      then e.snd.map lowerString else []))

/-- A hotkey combination: either its textual form or its pre-tokenized
array form. -/
inductive Combination where
  | str (s : String)
  | arr (tokens : List String)

/-- Options of `parseCombination`; `trim` is `none` when the caller did
not set it (JS `undefined`), in which case the default depends on the
input form. -/
structure ParseCombinationOptions where
  splitBy : String := "+"
  trim : Option Bool := none
  allowCodeAsModifier : Bool := true
  inferShift : Bool := false

/-- Token normalization of `parseCombination`: split (textual form) or
copy (array form), then optionally trim, then lowercase every token. -/
def normalizedParts (combination : Combination) (opts : ParseCombinationOptions) :
    List String :=
  let isCombinationArray := match combination with
    | .arr _ => true
    | .str _ => false
  let resolvedTrim := opts.trim.getD (!isCombinationArray)
  let rawTokens := match combination with
    | .arr ts => ts
    | .str s => jsSplit opts.splitBy s
  rawTokens.map (fun part => lowerString (if resolvedTrim then trimString part else part))

/-- The modifier loop of `parseCombination` over all tokens before the
last: fails on a non-modifier token, on a code token while
`allowCodeAsModifier` is off, and on a duplicate modifier flag;
otherwise accumulates the claimed flags. -/
def scanModifiers (mac allowCodeAsModifier : Bool) :
    List String → List String → Option (List String)
  | seen, [] => some seen
  | seen, part :: rest =>
    let normalizedPart := preMap mac part
    match modifierKeyLookup normalizedPart with
    | none => none
    | some modifierKey =>
      if !allowCodeAsModifier && MODIFIER_CODE_TOKENS.contains normalizedPart then
        none
      else if modifierKey ∈ seen then none
      else scanModifiers mac allowCodeAsModifier (seen ++ [modifierKey]) rest

/-- Last-token handling of `parseCombination`: if the last token is
itself a modifier name, it must not collide with an already claimed
flag, and claims its flag; returns the updated flag set together with
the platform-substituted last token. -/
def lastStep (mac : Bool) (seen : List String) (lastPart : String) :
    Option (List String × String) :=
  let normalizedLastPart := preMap mac lastPart
  match modifierKeyLookup normalizedLastPart with
  | some lastPartModifierKey =>
    if lastPartModifierKey ∈ seen then none
    else some (seen ++ [lastPartModifierKey], normalizedLastPart)
  | none => some (seen, normalizedLastPart)

/-- Whether this exact `(code, key)` pair is a `SHIFT_KEY_MAPPINGS`
entry, i.e. the character is only reachable by holding Shift. -/
def isShiftDerivedPair (code key : String) : Bool :=
  SHIFT_KEY_MAPPINGS.any (fun m => code = m.fst && key = m.snd)

/-- Emission of one `ParsedCombination` per resolved variant, with the
optional Shift auto-inference for shift-derived pairs. -/
def buildVariant (inferShift : Bool) (seen : List String) (resolved : ResolvedKey) :
    ParsedCombination :=
  let isShiftDerived := inferShift && isShiftDerivedPair resolved.code resolved.key
  { metaKey := seen.contains "metaKey"
    ctrlKey := seen.contains "ctrlKey"
    shiftKey := isShiftDerived || seen.contains "shiftKey"
    altKey := seen.contains "altKey"
    key := resolved.key
    code := resolved.code
    keyCode := resolved.keyCode
    which := resolved.which }

/-- Body of `parseCombination` after token normalization. -/
def parseNormalized (mac : Bool) (opts : ParseCombinationOptions)
    (parts : List String) : List ParsedCombination :=
  if parts.any (fun t => t = "") then []
  else if parts.length = 0 then []
  else
    match scanModifiers mac opts.allowCodeAsModifier [] parts.dropLast with
    | none => []
    | some seenModifiers =>
      match lastStep mac seenModifiers ((parts.getLast?).getD "") with
      | none => []
      | some (seenAll, normalizedLastPart) =>
        let resolvedKeys := resolveKey mac normalizedLastPart
        if resolvedKeys.length = 0 then []
        else resolvedKeys.map (buildVariant opts.inferShift seenAll)

/-- `parseCombination` from `parseCombination.ts`. -/
def parseCombination (mac : Bool) (combination : Combination)
    (opts : ParseCombinationOptions) : List ParsedCombination :=
  parseNormalized mac opts (normalizedParts combination opts)

/-- The eight fields a comparator may inspect. -/
inductive CombField where
  | key | code | keyCode | which | metaKey | ctrlKey | shiftKey | altKey
deriving DecidableEq, Repr

/-- Field equality between two records (JS `a[key] === b[key]`). -/
def fieldEqOn (a b : ParsedCombination) : CombField → Bool
  | .key => a.key = b.key
  | .code => a.code = b.code
  | .keyCode => a.keyCode = b.keyCode
  | .which => a.which = b.which
  | .metaKey => a.metaKey = b.metaKey
  | .ctrlKey => a.ctrlKey = b.ctrlKey
  | .shiftKey => a.shiftKey = b.shiftKey
  | .altKey => a.altKey = b.altKey

/-- A comparator: pure boolean function of two field-bearing records. -/
def Comparator := ParsedCombination → ParsedCombination → Bool

/-- `eq` from `comparators.ts`: equality on the named fields. -/
def eq (keys : List CombField) : Comparator :=
  fun a b => keys.all (fieldEqOn a b)

/-- `and` from `comparators.ts`: all given comparators must agree. -/
def and (conds : List Comparator) : Comparator :=
  fun a b => conds.all (fun fn => fn a b)

/-- `or` from `comparators.ts`: any one of the comparators suffices. -/
def or (conds : List Comparator) : Comparator :=
  fun a b => conds.any (fun fn => fn a b)

/-- `MODIFIERS_COMPARATOR` from `comparators.ts`. -/
def MODIFIERS_COMPARATOR : Comparator :=
  eq [.altKey, .ctrlKey, .metaKey, .shiftKey]

/-- `COMPARE_BY_KEY` from `comparators.ts`. -/
def COMPARE_BY_KEY : Comparator := and [eq [.key], MODIFIERS_COMPARATOR]

/-- `COMPARE_BY_CODE` from `comparators.ts`. -/
def COMPARE_BY_CODE : Comparator := and [eq [.code], MODIFIERS_COMPARATOR]

/-- `COMPARE_BY_WHICH` from `comparators.ts`. -/
def COMPARE_BY_WHICH : Comparator := and [eq [.which], MODIFIERS_COMPARATOR]

/-- `COMPARE_BY_KEY_CODE` from `comparators.ts`. -/
def COMPARE_BY_KEY_CODE : Comparator := and [eq [.keyCode], MODIFIERS_COMPARATOR]

/-- `DEFAULT_COMPARATOR` from `comparators.ts`. -/
def DEFAULT_COMPARATOR : Comparator :=
  or [COMPARE_BY_KEY, COMPARE_BY_CODE, COMPARE_BY_WHICH, COMPARE_BY_KEY_CODE]

/-- A hotkey descriptor: a combination plus optional parse options. -/
structure Hotkey where
  combination : Combination
  options : ParseCombinationOptions := {}

/-- `matchesHotkeys` from `matchesHotkeys.ts`: expands each descriptor
via `parseCombination` (with its own options) and tests every expansion
against the event with the comparator.  The event is modelled by its
eight comparator-visible fields. -/
def matchesHotkeys (mac : Bool) (hotkeys : List Hotkey)
    (event : ParsedCombination) (comparator : Comparator) : Bool :=
  hotkeys.any (fun h =>
    (parseCombination mac h.combination h.options).any
      (fun parsedCombination => comparator parsedCombination event))

/-! ## Helper lemmas -/

/-- On an association list whose lowercased keys are distinct, `find?`
by lowercased key returns exactly the member entry. -/
lemma find_lower_eq_of_mem (l : List (String × KeyDef))
    (hnd : (l.map (fun e => lowerString e.fst)).Nodup)
    (c : String) (d : KeyDef) (hmem : (c, d) ∈ l) :
    l.find? (fun e => lowerString e.fst = lowerString c) = some (c, d) := by
  induction l with
  | nil => cases hmem
  | cons e t ih =>
    rcases List.mem_cons.mp hmem with he | ht
    · subst he
      simp [List.find?_cons]
    · rw [List.map_cons, List.nodup_cons] at hnd
      have hne : lowerString e.fst ≠ lowerString c := by
        intro hcontra
        exact hnd.1 (hcontra ▸ List.mem_map_of_mem (fun x => lowerString x.fst) ht)
      have hdec : (decide (lowerString e.fst = lowerString c)) = false := by
        simpa using hne
      simp only [List.find?_cons, hdec]
      exact ih hnd.2 ht

/-- The lowercased codes of the registry are pairwise distinct. -/
lemma lower_codes_nodup :
    (KEY_DEFINITIONS.map (fun e => lowerString e.fst)).Nodup := by decide

/-- No registry code lowercases to the empty string or to `"mod"`. -/
lemma lower_codes_ne :
    ∀ e ∈ KEY_DEFINITIONS, lowerString e.fst ≠ "" ∧ lowerString e.fst ≠ "mod" := by
  decide

/-- `findByCode` at the lowercasing of a registry code returns exactly
that registry entry. -/
lemma findByCode_of_mem (c : String) (d : KeyDef)
    (hmem : (c, d) ∈ KEY_DEFINITIONS) :
    findByCode (lowerString c) = some ⟨d.key, c, d.keyCode, d.keyCode⟩ := by
  unfold findByCode
  rw [find_lower_eq_of_mem KEY_DEFINITIONS lower_codes_nodup c d hmem]
  rfl

/-- For a single-character separator, the split worker agrees with
`List.splitOnP.go` whenever the fuel covers the list. -/
lemma jsSplitGo_singleton (c : Char) :
    ∀ (fuel : Nat) (l acc : List Char), l.length ≤ fuel →
      jsSplitGo [c] fuel l acc = List.splitOnP.go (fun a => a == c) l acc := by
  intro fuel
  induction fuel with
  | zero =>
    intro l acc hl
    cases l with
    | nil => rfl
    | cons a as => exact absurd hl (by simp)
  | succ n ih =>
    intro l acc hl
    cases l with
    | nil => rfl
    | cons a as =>
      have hswap : ([c].isPrefixOf (a :: as)) = (a == c) := by
        simp only [List.isPrefixOf, Bool.and_true]
        by_cases h : c = a
        · subst h; rfl
        · rw [beq_eq_false_iff_ne.mpr h, beq_eq_false_iff_ne.mpr (Ne.symm h)]
      have has : as.length ≤ n := Nat.le_of_succ_le_succ (by simpa using hl)
      simp only [jsSplitGo, List.splitOnP.go, hswap, List.length_cons,
        List.length_nil, Nat.add_sub_cancel, List.drop_zero, List.length_singleton]
      split
      · rw [ih as [] has]
      · rw [ih as (a :: acc) has]

/-- On a token list whose tokens avoid the separator character, the
split worker inverts the join. -/
lemma jsSplit_joinTokens (c : Char) (tokens : List String) (hne : tokens ≠ [])
    (htoks : ∀ t ∈ tokens, c ∉ t.data) :
    jsSplit ⟨[c]⟩ (joinTokens ⟨[c]⟩ tokens) = tokens := by
  unfold jsSplit joinTokens
  rw [jsSplitGo_singleton c _ _ [] (Nat.le_refl _)]
  have hsplit :
      List.splitOnP.go (fun a => a == c)
        (List.intercalate [c] (tokens.map String.data)) [] =
      (List.intercalate [c] (tokens.map String.data)).splitOn c := rfl
  rw [hsplit, List.splitOn_intercalate (tokens.map String.data) c ?hx ?hls]
  · rw [List.map_map]
    have hid : ((fun cs => (⟨cs⟩ : String)) ∘ String.data) = id := funext fun s => rfl
    rw [hid, List.map_id]
  case hx =>
    intro l hl
    obtain ⟨t, ht, rfl⟩ := List.mem_map.mp hl
    exact htoks t ht
  case hls =>
    intro hcontra
    exact hne (List.map_eq_nil_iff.mp hcontra)

/-- The modifier loop fails whenever some token of the scanned list is
not a modifier. -/
lemma scanModifiers_none_of_nonmod (mac allow : Bool) :
    ∀ (l seen : List String) (p : String), p ∈ l →
      modifierKeyLookup (preMap mac p) = none →
      scanModifiers mac allow seen l = none := by
  intro l
  induction l with
  | nil => intro seen p hp; cases hp
  | cons a t ih =>
    intro seen p hp hnone
    rcases List.mem_cons.mp hp with rfl | hpt
    · simp only [scanModifiers, hnone]
    · cases hlk : modifierKeyLookup (preMap mac a) with
      | none => simp only [scanModifiers, hlk]
      | some k =>
        simp only [scanModifiers, hlk]
        split
        · rfl
        · split
          · rfl
          · exact ih _ p hpt hnone

/-- The modifier loop fails whenever some token of the scanned list
maps to a flag already claimed in `seen`. -/
lemma scanModifiers_none_of_seen (mac allow : Bool) :
    ∀ (l seen : List String) (q f : String), q ∈ l →
      modifierKeyLookup (preMap mac q) = some f → f ∈ seen →
      scanModifiers mac allow seen l = none := by
  intro l
  induction l with
  | nil => intro seen q f hq; cases hq
  | cons a t ih =>
    intro seen q f hq hlkq hfseen
    rcases List.mem_cons.mp hq with rfl | hqt
    · simp only [scanModifiers, hlkq, if_pos hfseen, ite_self]
    · cases hlk : modifierKeyLookup (preMap mac a) with
      | none => simp only [scanModifiers, hlk]
      | some k =>
        simp only [scanModifiers, hlk]
        split
        · rfl
        · split
          · rfl
          · exact ih _ q f hqt hlkq (List.mem_append_left _ hfseen)

/-- A successful modifier scan only grows the claimed-flag set. -/
lemma scanModifiers_superset (mac allow : Bool) :
    ∀ (l seen s : List String), scanModifiers mac allow seen l = some s →
      ∀ f ∈ seen, f ∈ s := by
  intro l
  induction l with
  | nil =>
    intro seen s h f hf
    simp only [scanModifiers, Option.some.injEq] at h
    exact h ▸ hf
  | cons a t ih =>
    intro seen s h f hf
    cases hlk : modifierKeyLookup (preMap mac a) with
    | none =>
      simp only [scanModifiers, hlk] at h
      exact Option.noConfusion h
    | some k =>
      simp only [scanModifiers, hlk] at h
      split at h
      · cases h
      · split at h
        · cases h
        · exact ih _ s h f (List.mem_append_left _ hf)

/-- After a successful modifier scan, every flag claimed by a scanned
token is in the resulting flag set. -/
lemma scanModifiers_flag_mem (mac allow : Bool) :
    ∀ (l seen s : List String) (q f : String),
      scanModifiers mac allow seen l = some s → q ∈ l →
      modifierKeyLookup (preMap mac q) = some f → f ∈ s := by
  intro l
  induction l with
  | nil => intro seen s q f _ hq; cases hq
  | cons a t ih =>
    intro seen s q f h hq hlkq
    cases hlk : modifierKeyLookup (preMap mac a) with
    | none =>
      simp only [scanModifiers, hlk] at h
      exact Option.noConfusion h
    | some k =>
      simp only [scanModifiers, hlk] at h
      split at h
      · cases h
      · split at h
        · cases h
        · rcases List.mem_cons.mp hq with rfl | hqt
          · have hk : k = f := by rw [hlk] at hlkq; exact Option.some.inj hlkq
            subst hk
            exact scanModifiers_superset mac allow t _ s h k
              (List.mem_append_right _ (List.mem_singleton_self k))
          · exact ih _ s q f h hqt hlkq

/-- The modifier loop fails whenever two scanned tokens, in order,
claim the same modifier flag. -/
lemma scanModifiers_none_of_dup (mac allow : Bool) :
    ∀ (l seen : List String) (p q f : String), [p, q].Sublist l →
      modifierKeyLookup (preMap mac p) = some f →
      modifierKeyLookup (preMap mac q) = some f →
      scanModifiers mac allow seen l = none := by
  intro l
  induction l with
  | nil => intro seen p q f hsub; cases hsub
  | cons a t ih =>
    intro seen p q f hsub hp hq
    cases hsub with
    | cons _ hsub' =>
      cases hlk : modifierKeyLookup (preMap mac a) with
      | none => simp only [scanModifiers, hlk]
      | some k =>
        simp only [scanModifiers, hlk]
        split
        · rfl
        · split
          · rfl
          · exact ih _ p q f hsub' hp hq
    | cons₂ _ hsub' =>
      simp only [scanModifiers, hp]
      split
      · rfl
      · split
        · rfl
        · exact scanModifiers_none_of_seen mac allow t _ q f
            (hsub'.subset (List.mem_singleton_self q)) hq
            (List.mem_append_right _ (List.mem_singleton_self f))

/-- Spelled-out meaning of `DEFAULT_COMPARATOR`: all four modifier
flags equal, and at least one of the key/code/keyCode/which fields
equal. -/
lemma default_comparator_spec (a b : ParsedCombination) :
    DEFAULT_COMPARATOR a b = true ↔
      ((a.metaKey = b.metaKey ∧ a.ctrlKey = b.ctrlKey ∧
        a.shiftKey = b.shiftKey ∧ a.altKey = b.altKey) ∧
       (a.key = b.key ∨ a.code = b.code ∨
        a.keyCode = b.keyCode ∨ a.which = b.which)) := by
  simp only [DEFAULT_COMPARATOR, COMPARE_BY_KEY, COMPARE_BY_CODE, COMPARE_BY_WHICH,
    COMPARE_BY_KEY_CODE, MODIFIERS_COMPARATOR, or, and, eq, fieldEqOn,
    List.any_cons, List.any_nil, List.all_cons, List.all_nil,
    Bool.or_eq_true, Bool.and_eq_true, Bool.and_eq_true_iff, decide_eq_true_eq]
  tauto

/-! ## Claim theorems -/

/-- C1 (counterexample): as stated, the claim requires the two records
of any bare generic modifier token to share the numeric code; for the
token `"meta"` the two sides have numeric codes 91 and 93. -/
theorem claim1_counterexample :
    ¬ (∀ r1 r2 : ResolvedKey, resolveKey false "meta" = [r1, r2] →
        r1.keyCode = r2.keyCode) := by
  intro h
  exact absurd
    (h ⟨"Meta", "MetaLeft", 91, 91⟩ ⟨"Meta", "MetaRight", 93, 93⟩ (by decide))
    (by decide)

/-- C1 (amended): every bare generic modifier token resolves to exactly
two records, one per physical side, sharing the logical key value, with
distinct `code` values; the ctrl/shift/alt family also shares the
numeric code, while the meta family has numeric codes 91 and 93. -/
theorem claim1_generic_modifiers_two_sides : ∀ (mac : Bool),
    (∀ t ∈ ["ctrl", "control", "shift", "alt", "option"],
      ∃ r1 r2, resolveKey mac t = [r1, r2] ∧ r1.key = r2.key ∧
        r1.keyCode = r2.keyCode ∧ r1.which = r2.which ∧ r1.code ≠ r2.code) ∧
    (∀ t ∈ ["meta", "win", "windows", "cmd", "command"],
      ∃ r1 r2, resolveKey mac t = [r1, r2] ∧ r1.key = r2.key ∧
        r1.code ≠ r2.code ∧ r1.keyCode = 91 ∧ r2.keyCode = 93 ∧
        r1.which = 91 ∧ r2.which = 93) := by
  intro mac
  refine ⟨?_, ?_⟩
  · intro t ht
    cases mac <;> fin_cases ht <;>
      exact ⟨_, _, rfl, by decide, by decide, by decide, by decide⟩
  · intro t ht
    cases mac <;> fin_cases ht <;>
      exact ⟨_, _, rfl, by decide, by decide, by decide, by decide, by decide, by decide⟩

/-- C1 (witness): the amended statement at the concrete token `"ctrl"`. -/
theorem claim1_witness :
    ∃ r1 r2, resolveKey false "ctrl" = [r1, r2] ∧ r1.key = r2.key ∧
      r1.keyCode = r2.keyCode ∧ r1.which = r2.which ∧ r1.code ≠ r2.code :=
  (claim1_generic_modifiers_two_sides false).1 "ctrl" (by decide)

/-- C2: a combination is rejected (empty result) whenever a normalized
token is empty, the token list is empty, a non-modifier token stands
before the final position, or two tokens claim the same modifier flag;
in particular `"ctrl+"`, `"+a"`, `"a+b"`, `"ctrl+control+a"`, `""`,
`"ctrl++a"` and a blank array entry all parse to `[]`. -/
theorem claim2_invalid_grammar_empty :
    (∀ mac (c : Combination) (opts : ParseCombinationOptions),
      "" ∈ normalizedParts c opts → parseCombination mac c opts = []) ∧
    (∀ mac (c : Combination) (opts : ParseCombinationOptions),
      normalizedParts c opts = [] → parseCombination mac c opts = []) ∧
    (∀ mac (c : Combination) (opts : ParseCombinationOptions) (p : String),
      p ∈ (normalizedParts c opts).dropLast →
      modifierKeyLookup (preMap mac p) = none →
      parseCombination mac c opts = []) ∧
    (∀ mac (c : Combination) (opts : ParseCombinationOptions) (p q f : String),
      [p, q].Sublist (normalizedParts c opts) →
      modifierKeyLookup (preMap mac p) = some f →
      modifierKeyLookup (preMap mac q) = some f →
      parseCombination mac c opts = []) ∧
    (∀ mac, parseCombination mac (.str "ctrl+") {} = [] ∧
      parseCombination mac (.str "+a") {} = [] ∧
      parseCombination mac (.str "a+b") {} = [] ∧
      parseCombination mac (.str "ctrl+control+a") {} = [] ∧
      parseCombination mac (.str "") {} = [] ∧
      parseCombination mac (.str "ctrl++a") {} = [] ∧
      parseCombination mac (.arr ["ctrl", ""]) {} = []) := by
  refine ⟨?_, ?_, ?_, ?_, ?_⟩
  · intro mac c opts hmem
    have h : (normalizedParts c opts).any (fun t => decide (t = "")) = true :=
      List.any_eq_true.mpr ⟨"", hmem, by simp⟩
    simp only [parseCombination, parseNormalized, h, if_true]
  · intro mac c opts h
    unfold parseCombination
    rw [h]
    rfl
  · intro mac c opts p hp hlk
    unfold parseCombination parseNormalized
    split
    · rfl
    · split
      · rfl
      · rw [scanModifiers_none_of_nonmod mac opts.allowCodeAsModifier
          (normalizedParts c opts).dropLast [] p hp hlk]
  · intro mac c opts p q f hsub hp hq
    unfold parseCombination parseNormalized
    split
    · rfl
    · split
      · rfl
      · next hlen =>
        have hne : normalizedParts c opts ≠ [] := by
          intro hcontra
          exact hlen (by rw [hcontra]; rfl)
        rw [← List.dropLast_append_getLast hne] at hsub
        obtain ⟨l₁, l₂, heq, hs1, hs2⟩ := List.sublist_append_iff.mp hsub
        rcases List.sublist_singleton.mp hs2 with rfl | rfl
        · rw [List.append_nil] at heq
          subst heq
          rw [scanModifiers_none_of_dup mac opts.allowCodeAsModifier
            (normalizedParts c opts).dropLast [] p q f hs1 hp hq]
        · have hl1 : l₁ = [p] ∧ q = (normalizedParts c opts).getLast hne := by
            cases l₁ with
            | nil => simp at heq
            | cons a t' =>
              rw [List.cons_append] at heq
              injection heq with h1 h2
              cases t' with
              | nil =>
                rw [List.nil_append] at h2
                injection h2 with h3 _
                exact ⟨by rw [h1], h3⟩
              | cons b t'' =>
                rw [List.cons_append] at h2
                injection h2 with h3 h4
                exact absurd h4 (by simp)
          obtain ⟨rfl, hqlast⟩ := hl1
          have hpmem : p ∈ (normalizedParts c opts).dropLast :=
            hs1.subset (List.mem_singleton_self p)
          split
          · rfl
          · rename_i seen hscan
            have hfseen : f ∈ seen :=
              scanModifiers_flag_mem mac opts.allowCodeAsModifier
                (normalizedParts c opts).dropLast [] seen p f hscan hpmem hp
            have hlaststep :
                lastStep mac seen (((normalizedParts c opts).getLast?).getD "") = none := by
              rw [List.getLast?_eq_getLast _ hne, Option.getD_some, ← hqlast]
              unfold lastStep
              simp only [hq]
              rw [if_pos hfseen]
            rw [hlaststep]
  · intro mac
    cases mac <;>
      exact ⟨by decide, by decide, by decide, by decide, by decide, by decide, by decide⟩

/-- C2 (witness): the empty-token rule at the concrete input `"ctrl+"`. -/
theorem claim2_witness :
    "" ∈ normalizedParts (.str "ctrl+") {} ∧
      parseCombination false (.str "ctrl+") {} = [] :=
  ⟨by decide, claim2_invalid_grammar_empty.1 false (.str "ctrl+") {} (by decide)⟩

/-- C3: the empty token resolves to the empty array, and any non-empty
token missed by all four lookup stages resolves to one fallback record
carrying the original (unlowercased) token and the `-1` sentinels. -/
theorem claim3_fallback_unknown_token :
    (∀ mac, resolveKey mac "" = []) ∧
    (∀ mac input, input ≠ "" →
      findByCode (preMap mac (lowerString input)) = none →
      findByCodeAlias (preMap mac (lowerString input)) = none →
      findByKey (preMap mac (lowerString input)) = [] →
      findByKeyAlias (preMap mac (lowerString input)) = [] →
      resolveKey mac input = [⟨input, input, -1, -1⟩]) ∧
    (∀ mac, resolveKey mac "zzz-unknown-token" =
      [⟨"zzz-unknown-token", "zzz-unknown-token", -1, -1⟩]) := by
  refine ⟨fun mac => by cases mac <;> decide, ?_, fun mac => by cases mac <;> decide⟩
  intro mac input hne h1 h2 h3 h4
  simp only [resolveKey, if_neg hne, h1, h2, h3, h4, List.length_nil,
    gt_iff_lt, lt_self_iff_false, if_false]

/-- C3 (witness): the fallback case at the concrete unknown token. -/
theorem claim3_witness :
    resolveKey false "zzz-Unknown-Token" =
      [⟨"zzz-Unknown-Token", "zzz-Unknown-Token", -1, -1⟩] :=
  claim3_fallback_unknown_token.2.1 false "zzz-Unknown-Token"
    (by decide) (by decide) (by decide) (by decide) (by decide)

/-- C4 (code evaluation at the failing input): with `inferShift` on, the
code resolves `"ctrl+plus"` through the unknown-token fallback — the
`KEY_ALIASES` table of `consts.ts` has no `"+"` entry carrying the alias
`"plus"`, although the inline snapshot tests in the very same sources
expect `"plus"` to expand to the `NumpadAdd`- and `Equal`-coded
variants. -/
theorem claim4_plus_fallback_eval :
    parseCombination false (.str "ctrl+plus") {inferShift := true} =
      [⟨false, true, false, false, "plus", "plus", -1, -1⟩] ∧
    parseCombination false (.str "ctrl+=") {inferShift := true} =
      [⟨false, true, false, false, "=", "Equal", 187, 187⟩] := by
  constructor <;> decide

/-- C5: the `"mod"` token is substituted per platform, read per call:
`"mod+s"` matches a meta-flagged `s` event on macOS and a ctrl-flagged
`s` event elsewhere. -/
theorem claim5_mod_platform :
    matchesHotkeys true [⟨.str "mod+s", {}⟩]
      ⟨true, false, false, false, "s", "KeyS", 83, 83⟩ DEFAULT_COMPARATOR = true ∧
    matchesHotkeys false [⟨.str "mod+s", {}⟩]
      ⟨false, true, false, false, "s", "KeyS", 83, 83⟩ DEFAULT_COMPARATOR = true := by
  constructor <;> decide

/-- C6: with the default comparator, `matchesHotkeys` is true exactly
when some descriptor has some parsed variant whose four modifier flags
all equal the event's and at least one of whose key, code, keyCode or
which fields equals the event's corresponding field. -/
theorem claim6_default_comparator_iff :
    ∀ mac (hotkeys : List Hotkey) (event : ParsedCombination),
      matchesHotkeys mac hotkeys event DEFAULT_COMPARATOR = true ↔
        ∃ h ∈ hotkeys, ∃ v ∈ parseCombination mac h.combination h.options,
          (v.metaKey = event.metaKey ∧ v.ctrlKey = event.ctrlKey ∧
           v.shiftKey = event.shiftKey ∧ v.altKey = event.altKey) ∧
          (v.key = event.key ∨ v.code = event.code ∨
           v.keyCode = event.keyCode ∨ v.which = event.which) := by
  intro mac hotkeys event
  simp only [matchesHotkeys, List.any_eq_true]
  constructor
  · rintro ⟨h, hh, v, hv, hc⟩
    exact ⟨h, hh, v, hv, (default_comparator_spec v event).mp hc⟩
  · rintro ⟨h, hh, v, hv, hc⟩
    exact ⟨h, hh, v, hv, (default_comparator_spec v event).mpr hc⟩

/-- C7: a token whose lowercasing equals a registry code resolves, via
the short-circuiting exact-code stage, to exactly one record whose
`code` is the canonical registry-cased form. -/
theorem claim7_exact_code_single :
    ∀ mac (input c : String) (d : KeyDef), (c, d) ∈ KEY_DEFINITIONS →
      lowerString input = lowerString c →
      resolveKey mac input = [⟨d.key, c, d.keyCode, d.keyCode⟩] := by
  intro mac input c d hmem hl
  have hprops := lower_codes_ne (c, d) hmem
  have hne : input ≠ "" := by
    intro hcontra
    exact hprops.1 (by rw [← hl, hcontra]; rfl)
  have hmod : lowerString input ≠ "mod" := hl ▸ hprops.2
  have hpre : preMap mac (lowerString input) = lowerString input := by
    unfold preMap
    rw [if_neg hmod]
  have hfind : findByCode (lowerString input) = some ⟨d.key, c, d.keyCode, d.keyCode⟩ := by
    rw [hl]
    exact findByCode_of_mem c d hmem
  simp only [resolveKey, if_neg hne, hpre, hfind]

/-- C7 (witness): the exact-code stage at the concrete token `"keya"`. -/
theorem claim7_witness : resolveKey false "keya" = [⟨"a", "KeyA", 65, 65⟩] :=
  claim7_exact_code_single false "keya" "KeyA" ⟨"a", 65⟩ (by decide) (by decide)

/-- C8: logical-key matching collects direct registry matches before
shift-derived matches, each group in declaration order; concretely,
`"0"` resolves to the top-row digit first and the numpad digit second. -/
theorem claim8_key_value_order :
    (∀ mac, resolveKey mac "0" =
      [⟨"0", "Digit0", 48, 48⟩, ⟨"0", "Numpad0", 96, 96⟩]) ∧
    (∀ input, findByKey input = directKeyMatches input ++ shiftKeyMatches input) ∧
    (∀ mac input, input ≠ "" →
      findByCode (preMap mac (lowerString input)) = none →
      findByCodeAlias (preMap mac (lowerString input)) = none →
      findByKey (preMap mac (lowerString input)) ≠ [] →
      resolveKey mac input =
        directKeyMatches (preMap mac (lowerString input)) ++
          shiftKeyMatches (preMap mac (lowerString input))) := by
  refine ⟨fun mac => by cases mac <;> decide, fun input => rfl, ?_⟩
  intro mac input hne h1 h2 h3
  have hlen : (findByKey (preMap mac (lowerString input))).length > 0 :=
    List.length_pos.mpr h3
  simp only [resolveKey, if_neg hne, h1, h2, if_pos hlen]
  rfl

/-- C8 (witness): the key-value stage at the concrete token `"0"`. -/
theorem claim8_witness :
    resolveKey false "0" =
      directKeyMatches (preMap false (lowerString "0")) ++
        shiftKeyMatches (preMap false (lowerString "0")) :=
  claim8_key_value_order.2.2 false "0" (by decide) (by decide) (by decide) (by decide)

/-- C9: for a list of non-empty tokens avoiding the (single-character)
separator, with trimming explicitly configured the same way, parsing
the joined textual form agrees with parsing the token array itself. -/
theorem claim9_string_array_agree :
    ∀ mac (opts : ParseCombinationOptions) (b : Bool) (c : Char) (tokens : List String),
      opts.splitBy = ⟨[c]⟩ →
      opts.trim = some b →
      tokens ≠ [] →
      (∀ t ∈ tokens, t ≠ "" ∧ c ∉ t.data) →
      parseCombination mac (.str (joinTokens opts.splitBy tokens)) opts =
        parseCombination mac (.arr tokens) opts := by
  intro mac opts b c tokens hsplit htrim hne htoks
  have hraw : jsSplit opts.splitBy (joinTokens opts.splitBy tokens) = tokens := by
    rw [hsplit]
    exact jsSplit_joinTokens c tokens hne (fun t ht => (htoks t ht).2)
  unfold parseCombination
  congr 1
  unfold normalizedParts
  simp only [htrim, Option.getD_some, hraw, Bool.not_false, Bool.not_true]

/-- C9 (witness): `"ctrl+a"` versus `["ctrl", "a"]` with trimming
explicitly on for both. -/
theorem claim9_witness :
    parseCombination false (.str (joinTokens "+" ["ctrl", "a"])) {trim := some true} =
      parseCombination false (.arr ["ctrl", "a"]) {trim := some true} :=
  claim9_string_array_agree false {trim := some true} true '+' ["ctrl", "a"]
    (by decide) (by decide) (by decide) (by decide)

/-- C10: the nullary comparator compositions are constant: `eq` of no
fields and `and` of no comparators always hold, `or` of no comparators
never does. -/
theorem claim10_nullary_comparators :
    ∀ (a b : ParsedCombination),
      eq [] a b = true ∧ and [] a b = true ∧ or [] a b = false :=
  fun _ _ => ⟨rfl, rfl, rfl⟩

end MatchesHotkeys
